import Mathlib

/-!
Verification development for the parcer2.0 ingestion-parse-map-persist
pipeline and its frontend utility hooks.

The backend pipeline (fingerprint engine, regex parser, parser
orchestrator, operator mapper, ingestion worker, persistence gateway) is
not shipped in this source tree (only its audit report, tests
documentation and frontend callers are), so those components are
modelled from the specification.  The frontend hooks
(`useInlineEdit.ts` date formatting, `useOfflineTransactions` cache
maintenance) are embedded directly from the TypeScript source.

Machine reals (JS floats) are avoided: monetary amounts are represented
exactly as cents (`Nat`), confidences as scaled naturals, timestamps as
integers.
-/

namespace Parcer

/-! ## Data model (spec §3) -/

/-- Modelled from the spec: `RawMessage` as produced by the Message
Source Adapter — text, origin chat id, origin message id, received
timestamp, bot identity.  Immutable value. -/
structure RawMessage where
  origin_chat_id : Int
  origin_message_id : Int
  bot_identity : String
  text : String
  received_at : Nat
deriving DecidableEq, Repr

/-- Transaction type enum of `ParsedTransaction`. -/
inductive TxType where
  | DEBIT | CREDIT | CONVERSION | REVERSAL
deriving DecidableEq, Repr

/-- Parsing method enum of `ParsedTransaction`. -/
inductive ParsingMethod where
  | REGEX | LLM
deriving DecidableEq, Repr

/-- Modelled from the spec: the field set a parser extracts from message
text (amount as exact cents, currency, raw operator string, optional
card last-4, date, type, optional balance). -/
structure ParsedFields where
  amount : Nat
  currency : String
  operator_raw : String
  card_last_4 : Option String
  transaction_date : Nat
  transaction_type : TxType
  balance_after : Option Int
deriving DecidableEq, Repr

/-- Modelled from the spec: `ParsedTransaction` — the canonical parser
output: extracted fields plus parsing method and confidence
(confidence scaled to 0..100 instead of a float in [0,1]). -/
structure ParsedTransaction extends ParsedFields where
  parsing_method : ParsingMethod
  parsing_confidence : Nat
deriving DecidableEq, Repr

/-! ## Fingerprint Engine (spec §4.1) -/

/-- Modelled from the spec: text normalization strips volatile
whitespace, collapsing every whitespace run to a single space and
dropping leading/trailing runs. -/
def normalize_text (s : String) : String :=
  String.intercalate " " ((s.split (fun c => c.isWhitespace)).filter (fun t => t ≠ ""))

/-- Modelled from the spec: a fingerprint is a deterministic digest over
`(origin_chat_id, origin_message_id, normalized_text)`; the digest is
embedded as the (injective) tuple itself. -/
abbrev Fingerprint := Int × Int × String

/-- Modelled from the spec: `fingerprint(msg)` — pure, total,
deterministic digest of the identifying tuple. -/
def fingerprint (m : RawMessage) : Fingerprint :=
  (m.origin_chat_id, m.origin_message_id, normalize_text m.text)

/-! ## Persistence Gateway (spec §3, §6) -/

/-- Modelled from the spec: a persisted `Transaction` — the parsed
transaction plus fingerprint, mapped application and P2P flag. -/
structure Transaction where
  fingerprint : Fingerprint
  parsed : ParsedTransaction
  application_mapped : Option String
  is_p2p : Bool
deriving DecidableEq, Repr

/-- Outcome of `insert_if_absent`. -/
inductive InsertOutcome where
  | inserted | duplicate
deriving DecidableEq, Repr

/-- Whether the store already holds a transaction with fingerprint `fp`. -/
def hasFingerprint (store : List Transaction) (fp : Fingerprint) : Bool :=
  store.any (fun t => t.fingerprint == fp)

/-- Modelled from the spec: `insert_if_absent(Transaction) ->
{inserted | duplicate}`, keyed by fingerprint, atomic with respect to
the uniqueness check; a duplicate insert leaves the store unchanged. -/
def insert_if_absent (store : List Transaction) (t : Transaction) :
    List Transaction × InsertOutcome :=
  if hasFingerprint store t.fingerprint then (store, .duplicate)
  else (store ++ [t], .inserted)

/-- Number of stored transactions carrying fingerprint `fp`. -/
def countFp (store : List Transaction) (fp : Fingerprint) : Nat :=
  (store.filter (fun t => t.fingerprint == fp)).length

/-! ## Regex Parser numeric normalization (spec §4.2) -/

/-- Separator characters accepted by the numeric normalizer. -/
def isSepChar (c : Char) : Bool := c == '.' || c == ','

/-- Decimal value of a digit string. -/
def digitsVal (cs : List Char) : Nat :=
  cs.foldl (fun a c => a * 10 + (c.toNat - 48)) 0

/-- Splits a character list at its last separator, returning the prefix,
the separator and the suffix; `none` when no separator occurs. -/
def splitLastSep : List Char → Option (List Char × Char × List Char)
  | [] => none
  | c :: cs =>
    match splitLastSep cs with
    | some (pre, s, post) => some (c :: pre, s, post)
    | none => if isSepChar c then some ([], c, cs) else none

/-- Modelled from the spec: `normalize_amount` accepts both dot- and
comma-delimited thousand/decimal separators.  The last separator is the
decimal separator when the other separator character also occurs, when
it is the only separator occurrence and is not followed by a 3-digit
group; otherwise every separator is a thousands separator.  The result
is the exact decimal value in cents. -/
def normalize_amount (s : String) : Option Nat :=
  let cs := s.toList.filter (fun c => c.isDigit || isSepChar c)
  if cs.any Char.isDigit then
    match splitLastSep cs with
    | none => some (digitsVal cs * 100)
    | some (pre, sep, post) =>
      let other : Char := if sep == '.' then ',' else '.'
      let isDecimal : Bool :=
        if pre.contains other then true
        else if pre.contains sep then false
        else post.length != 3
      if isDecimal then
        let intPart := digitsVal (pre.filter Char.isDigit)
        match post.length with
        | 0 => some (intPart * 100)
        | 1 => some (intPart * 100 + digitsVal post * 10)
        | 2 => some (intPart * 100 + digitsVal post)
        | _ => none
      else some (digitsVal (cs.filter Char.isDigit) * 100)
  else none

/-! ## Regex Parser (spec §4.2) -/

/-- Modelled from the spec: a format definition — a pattern plus a
field-extraction mapping (embedded as one structural-match-and-extract
function) and a fixed confidence score for the format. -/
structure RegexFormat where
  extract : String → Option ParsedFields
  confidence : Nat

/-- Modelled from the spec: the Regex Parser tries its ordered list of
format definitions in priority order; the first structural match wins
and yields that format's extraction and confidence; no match yields
`none` (not an error). -/
def regexParse : List RegexFormat → String → Option (ParsedFields × Nat)
  | [], _ => none
  | f :: fs, text =>
    match f.extract text with
    | some r => some (r, f.confidence)
    | none => regexParse fs text

/-! ## Parser Orchestrator and Language-Model Fallback (spec §4.3, §4.4) -/

/-- Result of the Parser Orchestrator: a canonical parsed transaction or
a retained parse failure (never an exception). -/
inductive ParseResult where
  | success (pt : ParsedTransaction)
  | failure (reason : String)
deriving DecidableEq, Repr

/-- Modelled from the spec: orchestrator configuration — the optional
credential for the external inference service and the regex confidence
threshold below which the fallback is consulted. -/
structure OrchestratorConfig where
  inference_credential : Option String
  confidence_threshold : Nat
deriving DecidableEq, Repr

/-- Modelled from the spec: capability check evaluated at orchestrator
start — the fallback stage is available exactly when an inference
credential is configured. -/
def is_fallback_available (cfg : OrchestratorConfig) : Bool :=
  cfg.inference_credential.isSome

/-- Modelled from the spec: the fallback stage.  With no credential it
is unavailable and the message is classified unparseable (a failure
value, not a raised error); otherwise one external inference call is
made (embedded as the function `infer credential text`, returning
extracted fields and model-reported confidence). -/
def tryFallback (cfg : OrchestratorConfig)
    (infer : String → String → Option (ParsedFields × Nat)) (text : String) :
    ParseResult :=
  match cfg.inference_credential with
  | none => .failure "fallback_unavailable"
  | some cred =>
    match infer cred text with
    | some (r, conf) => .success ⟨r, .LLM, conf⟩
    | none => .failure "unparseable"

/-- Modelled from the spec: the orchestrator sequence — try the Regex
Parser; on a confident match return it with `parsing_method = REGEX`;
otherwise try the fallback; if both fail return a `ParseFailure`
value. -/
def orchestrate (cfg : OrchestratorConfig) (formats : List RegexFormat)
    (infer : String → String → Option (ParsedFields × Nat)) (text : String) :
    ParseResult :=
  match regexParse formats text with
  | some (r, conf) =>
    if cfg.confidence_threshold ≤ conf then .success ⟨r, .REGEX, conf⟩
    else tryFallback cfg infer text
  | none => tryFallback cfg infer text

/-! ## Operator Mapper (spec §4.5) -/

/-- Modelled from the spec: `OperatorMapping` reference-table row. -/
structure OperatorMapping where
  operator_pattern : String
  application_name : String
  is_p2p : Bool
  priority : Int
  is_active : Bool
deriving DecidableEq, Repr

/-- Boolean prefix test on character lists. -/
def isPrefixOfB : List Char → List Char → Bool
  | [], _ => true
  | _ :: _, [] => false
  | a :: as, b :: bs => a == b && isPrefixOfB as bs

/-- Boolean substring test: `containsSub hay needle` holds when `needle`
occurs contiguously inside `hay`. -/
def containsSub : List Char → List Char → Bool
  | hay, needle =>
    match hay with
    | [] => isPrefixOfB needle []
    | h :: hs => isPrefixOfB needle (h :: hs) || containsSub hs needle

/-- Substring match of an operator pattern against the raw operator
string. -/
def matchesSub (pattern raw : String) : Bool :=
  containsSub raw.toList pattern.toList

/-- Modelled from the spec: strict "better row" ordering used for
deterministic resolution — higher `priority` first, ties broken by
longest `operator_pattern`, then by pattern lexical order. -/
def betterRow (x y : OperatorMapping) : Bool :=
  if x.priority = y.priority then
    if x.operator_pattern.length = y.operator_pattern.length then
      decide (x.operator_pattern < y.operator_pattern)
    else decide (y.operator_pattern.length < x.operator_pattern.length)
  else decide (y.priority < x.priority)

/-- Picks the best row of a candidate list under `betterRow`. -/
def pickBest : List OperatorMapping → Option OperatorMapping
  | [] => none
  | r :: rs =>
    match pickBest rs with
    | none => some r
    | some b => if betterRow b r then some b else some r

/-- Active rows of the mapping table — only these participate. -/
def activeRows (table : List OperatorMapping) : List OperatorMapping :=
  table.filter (fun r => r.is_active)

/-- Active rows whose pattern matches the raw operator exactly. -/
def exactMatches (table : List OperatorMapping) (raw : String) :
    List OperatorMapping :=
  (activeRows table).filter (fun r => r.operator_pattern == raw)

/-- Active rows whose pattern occurs as a substring of the raw
operator. -/
def substrMatches (table : List OperatorMapping) (raw : String) :
    List OperatorMapping :=
  (activeRows table).filter (fun r => matchesSub r.operator_pattern raw)

/-- Modelled from the spec: `resolve(operator_raw)` — exact-string match
takes precedence over substring match; among substring matches the
highest priority wins, ties broken by longest pattern then lexical
order; only active rows participate; `none` means `Unmapped`. -/
def resolve (table : List OperatorMapping) (raw : String) :
    Option (String × Bool) :=
  match pickBest (exactMatches table raw) with
  | some r => some (r.application_name, r.is_p2p)
  | none => (pickBest (substrMatches table raw)).map
      (fun r => (r.application_name, r.is_p2p))

/-! ## Ingestion Worker (spec §4.6) -/

/-- Terminal outcome of one worker iteration over a message. -/
inductive ProcOutcome where
  | persisted | skipped_duplicate | parse_failed
deriving DecidableEq, Repr

/-- Modelled from the spec: one worker iteration — fingerprint the
message, skip when the fingerprint already exists, otherwise parse, map
the operator and persist through `insert_if_absent`; a parse failure
retains the message and completes the iteration without raising. -/
def processMessage (cfg : OrchestratorConfig) (formats : List RegexFormat)
    (infer : String → String → Option (ParsedFields × Nat))
    (table : List OperatorMapping)
    (store : List Transaction) (m : RawMessage) :
    List Transaction × ProcOutcome :=
  let fp := fingerprint m
  if hasFingerprint store fp then (store, .skipped_duplicate)
  else
    match orchestrate cfg formats infer m.text with
    | .failure _ => (store, .parse_failed)
    | .success pt =>
      let mapped := resolve table pt.operator_raw
      let tx : Transaction :=
        ⟨fp, pt, mapped.map Prod.fst, ((mapped.map Prod.snd).getD false)⟩
      match insert_if_absent store tx with
      | (store2, .inserted) => (store2, .persisted)
      | (store2, .duplicate) => (store2, .skipped_duplicate)

/-! ## Worker retry state machine (spec §4.6, §7) -/

/-- Per-message worker states of the spec state machine, with the
attempt counter carried inside `TRANSIENT_ERROR`. -/
inductive MsgState where
  | received | fingerprinted | parsed | mapped | persisted
  | parse_failed | skipped_duplicate | dead_letter
  | transient_error (attempts : Nat)
deriving DecidableEq, Repr

/-- Modelled from the spec: one retry transition.  A message in
`TRANSIENT_ERROR` is re-attempted: `attemptFails n` tells whether retry
number `n` fails transiently again; after the configured attempt cap it
moves to `DEAD_LETTER`; every other state is terminal for the retry
loop. -/
def retryStep (cap : Nat) (attemptFails : Nat → Bool) : MsgState → MsgState
  | .transient_error n =>
    if attemptFails n then
      if cap ≤ n + 1 then .dead_letter else .transient_error (n + 1)
    else .persisted
  | s => s

/-! ## Frontend date/time formatting (src/frontend/src/hooks/useInlineEdit.ts) -/

/-- Observable content of a valid JS `Date`: the values returned by
`getFullYear`, `getMonth` (0-based), `getDate`, `getHours`,
`getMinutes`. -/
structure JSDate where
  year : Int
  month0 : Nat
  day : Nat
  hour : Nat
  minute : Nat
deriving DecidableEq, Repr

/-- JS values reaching the formatting utilities: `null`, `undefined`,
strings, numbers, `Date` objects (`none` payload = an Invalid Date) and
anything else. -/
inductive JSValue where
  | null
  | undefined
  | str (s : String)
  | num (n : Int)
  | date (d : Option JSDate)
  | other
deriving DecidableEq, Repr

/-- The JS engine's `new Date(...)` conversions, abstracted: how a
string and a number are parsed into a valid date (`none` = Invalid
Date). -/
structure JSEngine where
  parseString : String → Option JSDate
  parseNum : Int → Option JSDate

/-- Source constant `EMPTY_VALUE`. -/
def EMPTY_VALUE : String := "—"

/-- Source `padZero`: `num.toString().padStart(2, '0')`. -/
def padZero (n : Nat) : String :=
  let s := toString n
  if s.length < 2 then String.mk (List.replicate (2 - s.length) '0') ++ s
  else s

/-- Source `parseDate`: `null`/`undefined`/`''` give `null`; a `Date`
object is returned iff valid; strings and numbers go through
`new Date(...)` and are kept iff valid; any other value gives `null`. -/
def parseDate (E : JSEngine) : JSValue → Option JSDate
  | .null => none
  | .undefined => none
  | .str "" => none
  | .date d => d
  | .str s => E.parseString s
  | .num n => E.parseNum n
  | .other => none

/-- Source `formatDate`: `MM.DD.YYYY` from the parsed date, dash for
invalid/missing values. -/
def formatDate (E : JSEngine) (v : JSValue) : String :=
  match parseDate E v with
  | none => EMPTY_VALUE
  | some d => padZero (d.month0 + 1) ++ "." ++ padZero d.day ++ "." ++ toString d.year

/-- Source `formatTime`: `HH:MM` (24-hour) from the parsed date, dash
for invalid/missing values. -/
def formatTime (E : JSEngine) (v : JSValue) : String :=
  match parseDate E v with
  | none => EMPTY_VALUE
  | some d => padZero d.hour ++ ":" ++ padZero d.minute

/-- Source `formatDateTime`: parses once, then formats the parsed
`Date` with `formatDate` and `formatTime`. -/
def formatDateTime (E : JSEngine) (v : JSValue) : String :=
  match parseDate E v with
  | none => EMPTY_VALUE
  | some d => formatDate E (.date (some d)) ++ " " ++ formatTime E (.date (some d))

/-! ## Frontend offline transaction cache (src/unnamed/part_003,
`useOfflineTransactions`) -/

/-- Frontend transaction record as cached by `useOfflineTransactions`.
`transaction_date` models the parse of the ISO date string: `none` for
a falsy (null/empty) value, `some ts` for the millisecond timestamp
`new Date(s).getTime()` of a valid date string. -/
structure FrontTx where
  id : Nat
  transaction_date : Option Int
  amount : String
  currency : String
  application_mapped : Option String
deriving DecidableEq, Repr

/-- Sort key of the source comparator: the timestamp, with a missing
`transaction_date` ordered as `0`. -/
def sortKey (t : FrontTx) : Int :=
  t.transaction_date.getD 0

/-- Source `sortTransactions`: copies the array (`[...items]`) and
sorts it ascending by `transaction_date` timestamp with the comparator
`(a, b) => at - bt`; JS `Array.prototype.sort` is stable, embedded as a
stable merge sort. -/
def sortTransactions (items : List FrontTx) : List FrontTx :=
  items.mergeSort (fun a b => decide (sortKey a ≤ sortKey b))

/-- New `data` state after a successful `loadTransactions`: the cached
rows, sorted. -/
def newDataAfterLoad (dbItems : List FrontTx) : List FrontTx :=
  sortTransactions dbItems

/-- New `data` state after `syncFromServer`: the fetched pages,
concatenated and sorted. -/
def newDataAfterSync (fetched : List FrontTx) : List FrontTx :=
  sortTransactions fetched

/-- JS `Map.set` on an insertion-ordered association list keyed by
`id`: an existing key keeps its position and takes the new value
(`{ ...existing, ...tx }` with a fully-populated `tx` is `tx`); a new
key is appended. -/
def setEntry : List FrontTx → FrontTx → List FrontTx
  | [], tx => [tx]
  | u :: us, tx => if u.id = tx.id then tx :: us else u :: setEntry us tx

/-- Source `upsertTransactions` state update: build a `Map` from the
previous rows, overwrite/add each upserted row, then sort the values. -/
def newDataAfterUpsert (prev list : List FrontTx) : List FrontTx :=
  sortTransactions ((prev ++ list).foldl setEntry [])

/-- A field patch of `updateTransactionFields`: the editable fields an
update may set (the `fields` record never carries `id`). -/
structure FieldPatch where
  transaction_date : Option (Option Int)
  amount : Option String
  currency : Option String
  application_mapped : Option (Option String)
deriving DecidableEq, Repr

/-- Object spread `{ ...tx, ...fields }` for a field patch. -/
def patchTx (tx : FrontTx) (p : FieldPatch) : FrontTx :=
  { tx with
    transaction_date := p.transaction_date.getD tx.transaction_date
    amount := p.amount.getD tx.amount
    currency := p.currency.getD tx.currency
    application_mapped := p.application_mapped.getD tx.application_mapped }

/-- One update entry of `updateTransactionFields`. -/
structure FieldUpdate where
  id : Nat
  fields : FieldPatch
deriving DecidableEq, Repr

/-- Source `updateTransactionFields` state update: patch each row with
the first update matching its id (`updates.find`), then sort. -/
def newDataAfterUpdateFields (prev : List FrontTx)
    (updates : List FieldUpdate) : List FrontTx :=
  sortTransactions (prev.map (fun tx =>
    match updates.find? (fun u => u.id == tx.id) with
    | some u => patchTx tx u.fields
    | none => tx))

/-- Source `removeTransactions` state update:
`prev.filter(tx => !ids.includes(tx.id))`. -/
def newDataAfterRemove (prev : List FrontTx) (ids : List Nat) : List FrontTx :=
  prev.filter (fun tx => !(ids.contains tx.id))

/-- Cache invariant: at most one row per id. -/
def uniqueIds (xs : List FrontTx) : Prop :=
  (xs.map (fun t => t.id)).Nodup

/-- Cache invariant: rows ascending by `transaction_date` timestamp
(missing dates as 0). -/
def sortedByDate (xs : List FrontTx) : Prop :=
  xs.Sorted (fun a b => sortKey a ≤ sortKey b)

/-- Full cache invariant of the `data` state. -/
def CacheInv (xs : List FrontTx) : Prop :=
  uniqueIds xs ∧ sortedByDate xs

instance : DecidablePred uniqueIds := fun xs => by
  unfold uniqueIds; infer_instance

instance : DecidablePred sortedByDate := fun xs => by
  unfold sortedByDate List.Sorted; infer_instance

instance : DecidablePred CacheInv := fun xs => by
  unfold CacheInv; infer_instance

/-! ## Sample values used by witnesses -/

/-- Sample extracted field set. -/
def samplePF : ParsedFields :=
  ⟨40000000, "UZS", "CLICK", some "1234", 20211126, .DEBIT, none⟩

/-- Sample raw message. -/
def sampleMsg : RawMessage :=
  ⟨77, 1001, "bot", "Oplata 400.000,00 UZS CLICK", 1700000000⟩

/-- Sample persisted transaction. -/
def sampleTx : Transaction :=
  ⟨(77, 1001, "t"), ⟨samplePF, .REGEX, 90⟩, some "Click", false⟩

/-- Sample JS engine: strings do not parse, numbers parse to a fixed
valid date. -/
def sampleEngine : JSEngine :=
  ⟨fun _ => none, fun _ => some ⟨2021, 10, 26, 14, 35⟩⟩

/-! ## Helper lemmas -/

lemma padZero_length (n : Nat) : 2 ≤ (padZero n).length := by
  unfold padZero
  dsimp only
  split
  case isTrue h =>
    have h1 : (String.mk (List.replicate (2 - (toString n).length) '0')).length
        = 2 - (toString n).length := by
      rw [show (String.mk (List.replicate (2 - (toString n).length) '0')).length
            = (List.replicate (2 - (toString n).length) '0').length from rfl,
        List.length_replicate]
    rw [String.length_append, h1]
    omega
  case isFalse h => omega

lemma hasFingerprint_false_iff (store : List Transaction) (fp : Fingerprint) :
    hasFingerprint store fp = false ↔ ∀ u ∈ store, u.fingerprint ≠ fp := by
  simp [hasFingerprint]

lemma countFp_append (a b : List Transaction) (fp : Fingerprint) :
    countFp (a ++ b) fp = countFp a fp + countFp b fp := by
  simp [countFp, List.filter_append]

/-! ## C4 -/

/-- C4: the Regex Parser's numeric normalization accepts both
dot-delimited and comma-delimited thousand/decimal separators:
`"400.000,00"` and `"400,000.00"` both normalize to the exact decimal
value 400000.00 (40000000 cents). -/
theorem amount_normalization_both_styles :
    normalize_amount "400.000,00" = some 40000000 ∧
    normalize_amount "400,000.00" = some 40000000 := by
  constructor <;> decide

/-! ## C9 -/

/-- C9: the date formatting utilities are total (every input value
yields a string): a `null`, `undefined` or empty-string value parses to
nothing, every unparseable value formats to the placeholder `"—"`, and
a parseable value formats as zero-padded `MM.DD.YYYY`, zero-padded
24-hour `HH:MM`, and `formatDateTime v = formatDate v ++ " " ++
formatTime v`; the padding always yields at least two characters. -/
theorem date_formatting_totality (E : JSEngine) (v : JSValue) :
    (v = .null ∨ v = .undefined ∨ v = .str "" → parseDate E v = none) ∧
    (parseDate E v = none →
      formatDate E v = EMPTY_VALUE ∧ formatTime E v = EMPTY_VALUE ∧
      formatDateTime E v = EMPTY_VALUE) ∧
    (∀ d, parseDate E v = some d →
      formatDate E v
          = padZero (d.month0 + 1) ++ "." ++ padZero d.day ++ "." ++ toString d.year ∧
      formatTime E v = padZero d.hour ++ ":" ++ padZero d.minute ∧
      formatDateTime E v = formatDate E v ++ " " ++ formatTime E v) ∧
    (∀ n, 2 ≤ (padZero n).length) := by
  refine ⟨?_, ?_, ?_, fun n => padZero_length n⟩
  · rintro (rfl | rfl | rfl) <;> rfl
  · intro h
    refine ⟨?_, ?_, ?_⟩ <;> simp [formatDate, formatTime, formatDateTime, h]
  · intro d hd
    have h1 : formatDate E v
        = padZero (d.month0 + 1) ++ "." ++ padZero d.day ++ "." ++ toString d.year := by
      unfold formatDate
      rw [hd]
    have h2 : formatTime E v = padZero d.hour ++ ":" ++ padZero d.minute := by
      unfold formatTime
      rw [hd]
    refine ⟨h1, h2, ?_⟩
    unfold formatDateTime
    rw [hd, h1, h2]
    rfl

/-- Witness for C9 at a concrete engine and value. -/
theorem date_formatting_totality_witness :
    formatDateTime sampleEngine (JSValue.num 5)
      = formatDate sampleEngine (JSValue.num 5) ++ " "
        ++ formatTime sampleEngine (JSValue.num 5) :=
  ((date_formatting_totality sampleEngine (JSValue.num 5)).2.2.1
    ⟨2021, 10, 26, 14, 35⟩ rfl).2.2

/-! ## C7 -/

/-- C7: the Regex Parser is first-match: when no format matches, it
returns `none` (not an error); and for a format list split as
`fs1 ++ f :: fs2` where nothing in `fs1` matches and `f` matches, the
result is `f`'s extraction and confidence, regardless of any later
matching format in `fs2`. -/
theorem regex_parser_first_match :
    (∀ (formats : List RegexFormat) (text : String),
      (∀ f ∈ formats, f.extract text = none) → regexParse formats text = none) ∧
    (∀ (fs1 : List RegexFormat) (f : RegexFormat) (fs2 : List RegexFormat)
        (text : String) (r : ParsedFields),
      (∀ g ∈ fs1, g.extract text = none) → f.extract text = some r →
      regexParse (fs1 ++ f :: fs2) text = some (r, f.confidence)) := by
  constructor
  · intro formats text h
    induction formats with
    | nil => rfl
    | cons g gs ih =>
      simp only [regexParse, h g (List.mem_cons_self g gs)]
      exact ih fun f hf => h f (List.mem_cons_of_mem g hf)
  · intro fs1 f fs2 text r h1 h2
    induction fs1 with
    | nil => simp [regexParse, h2]
    | cons g gs ih =>
      simp only [List.cons_append, regexParse, h1 g (List.mem_cons_self g gs)]
      exact ih fun x hx => h1 x (List.mem_cons_of_mem g hx)

/-- Witness for C7: one non-matching format before a matching one. -/
theorem regex_parser_first_match_witness :
    regexParse [⟨fun _ => none, 50⟩, ⟨fun _ => some samplePF, 90⟩] "txt"
      = some (samplePF, 90) :=
  regex_parser_first_match.2 [⟨fun _ => none, 50⟩] ⟨fun _ => some samplePF, 90⟩
    [] "txt" samplePF (by intro g hg; simp at hg; rw [hg]) rfl

/-! ## C8 -/

lemma retryStep_transient_bound (cap : Nat) (fails : Nat → Bool)
    (s : MsgState) (k : Nat)
    (h : retryStep cap fails s = .transient_error k) :
    k < cap ∨ s = .transient_error k := by
  cases s with
  | transient_error n =>
    have hstep : retryStep cap fails (MsgState.transient_error n)
        = if fails n = true then
            (if cap ≤ n + 1 then MsgState.dead_letter
             else MsgState.transient_error (n + 1))
          else MsgState.persisted := rfl
    rw [hstep] at h
    by_cases hf : fails n = true
    · rw [if_pos hf] at h
      by_cases hc : cap ≤ n + 1
      · rw [if_pos hc] at h; exact absurd h (by simp)
      · rw [if_neg hc] at h
        left
        have : n + 1 = k := by injection h
        omega
    · rw [if_neg hf] at h; exact absurd h (by simp)
  | received => exact Or.inr h
  | fingerprinted => exact Or.inr h
  | parsed => exact Or.inr h
  | mapped => exact Or.inr h
  | persisted => exact Or.inr h
  | parse_failed => exact Or.inr h
  | skipped_duplicate => exact Or.inr h
  | dead_letter => exact Or.inr h

lemma retry_all_fail_run (cap : Nat) (fails : Nat → Bool) (hcap : 0 < cap)
    (hall : ∀ n, fails n = true) (j : Nat) :
    (retryStep cap fails)^[j] (.transient_error 0)
      = if j < cap then .transient_error j else .dead_letter := by
  induction j with
  | zero => simp [hcap]
  | succ j ih =>
    rw [Function.iterate_succ_apply', ih]
    by_cases hj : j < cap
    · rw [if_pos hj]
      have hstep : retryStep cap fails (MsgState.transient_error j)
          = if fails j = true then
              (if cap ≤ j + 1 then MsgState.dead_letter
               else MsgState.transient_error (j + 1))
            else MsgState.persisted := rfl
      rw [hstep, if_pos (hall j)]
      by_cases hc : cap ≤ j + 1
      · rw [if_pos hc, if_neg (by omega)]
      · rw [if_neg hc, if_pos (by omega)]
    · rw [if_neg hj, if_neg (by omega)]
      rfl

/-- C8: the retry loop is bounded — the attempt counter of a
`TRANSIENT_ERROR` state never reaches the configured cap, and an
execution where every attempt keeps failing transiently is in
`DEAD_LETTER` after the cap is exceeded (no infinite retry). -/
theorem retry_bound (cap : Nat) (fails : Nat → Bool) (hcap : 0 < cap) :
    (∀ j k, (retryStep cap fails)^[j] (.transient_error 0) = .transient_error k →
      k < cap) ∧
    ((∀ n, fails n = true) → ∀ j, cap ≤ j →
      (retryStep cap fails)^[j] (.transient_error 0) = .dead_letter) := by
  constructor
  · intro j
    induction j with
    | zero =>
      intro k h
      have : (0 : Nat) = k := by injection h
      omega
    | succ j ih =>
      intro k h
      rw [Function.iterate_succ_apply'] at h
      rcases retryStep_transient_bound cap fails _ k h with hk | hs
      · exact hk
      · exact ih k hs
  · intro hall j hj
    rw [retry_all_fail_run cap fails hcap hall j, if_neg (by omega)]

/-- Witness for C8: cap 2, all attempts failing, 3 iterations. -/
theorem retry_bound_witness :
    (retryStep 2 (fun _ => true))^[3] (.transient_error 0)
      = MsgState.dead_letter :=
  (retry_bound 2 (fun _ => true) (by decide)).2 (fun _ => rfl) 3 (by decide)

/-! ## C3 -/

/-- C3: with no inference-service credential configured the orchestrator
treats the fallback stage as unavailable; a message regex cannot parse
yields a `ParseFailure` value from the orchestrator, and the worker
iteration completes with the `parse_failed` outcome and an unchanged
store (failures are values — nothing is raised past the worker). -/
theorem fallback_degradation (cfg : OrchestratorConfig)
    (hcred : cfg.inference_credential = none) :
    is_fallback_available cfg = false ∧
    (∀ (formats : List RegexFormat)
        (infer : String → String → Option (ParsedFields × Nat)) (text : String),
      regexParse formats text = none →
      orchestrate cfg formats infer text = .failure "fallback_unavailable") ∧
    (∀ (formats : List RegexFormat)
        (infer : String → String → Option (ParsedFields × Nat))
        (table : List OperatorMapping) (store : List Transaction)
        (m : RawMessage),
      regexParse formats m.text = none →
      processMessage cfg formats infer table store m
        = (store, if hasFingerprint store (fingerprint m)
                  then .skipped_duplicate else .parse_failed)) := by
  refine ⟨by simp [is_fallback_available, hcred], ?_, ?_⟩
  · intro formats infer text h
    simp [orchestrate, h, tryFallback, hcred]
  · intro formats infer table store m h
    by_cases hfp : hasFingerprint store (fingerprint m)
    · simp [processMessage, hfp]
    · simp [processMessage, hfp, orchestrate, h, tryFallback, hcred]

/-- Witness for C3 at an empty format list and fresh store. -/
theorem fallback_degradation_witness :
    processMessage ⟨none, 80⟩ [] (fun _ _ => none) [] [] sampleMsg
      = ([], ProcOutcome.parse_failed) :=
  (fallback_degradation ⟨none, 80⟩ rfl).2.2 [] (fun _ _ => none) [] [] sampleMsg rfl

/-! ## C1 -/

lemma hasFingerprint_append_self (store : List Transaction) (tx : Transaction) :
    hasFingerprint (store ++ [tx]) tx.fingerprint = true := by
  simp [hasFingerprint, List.any_append]

/-- C1: dedup idempotence of the worker pipeline — re-processing the
same `RawMessage` never changes the store again, a message already
persisted is skipped as a duplicate on the retry, and a first
processing that persists on a store without that fingerprint leaves
exactly one transaction with that fingerprint after both runs. -/
theorem dedup_idempotence (cfg : OrchestratorConfig)
    (formats : List RegexFormat)
    (infer : String → String → Option (ParsedFields × Nat))
    (table : List OperatorMapping) (store : List Transaction)
    (m : RawMessage) :
    (processMessage cfg formats infer table
        (processMessage cfg formats infer table store m).1 m).1
      = (processMessage cfg formats infer table store m).1 ∧
    ((processMessage cfg formats infer table store m).2 = .persisted →
      (processMessage cfg formats infer table
          (processMessage cfg formats infer table store m).1 m).2
        = .skipped_duplicate) ∧
    (countFp store (fingerprint m) = 0 →
      (processMessage cfg formats infer table store m).2 = .persisted →
      countFp (processMessage cfg formats infer table
          (processMessage cfg formats infer table store m).1 m).1
          (fingerprint m)
        = 1) := by
  by_cases hfp : hasFingerprint store (fingerprint m)
  · constructor
    · simp [processMessage, hfp]
    · constructor
      · intro h
        exfalso
        simp [processMessage, hfp] at h
      · intro _ h
        exfalso
        simp [processMessage, hfp] at h
  · cases horch : orchestrate cfg formats infer m.text with
    | failure r =>
      constructor
      · simp [processMessage, hfp, horch]
      · constructor
        · intro h
          exfalso
          simp [processMessage, hfp, horch] at h
        · intro _ h
          exfalso
          simp [processMessage, hfp, horch] at h
    | success pt =>
      have hins : insert_if_absent store
          ⟨fingerprint m, pt,
            (resolve table pt.operator_raw).map Prod.fst,
            (((resolve table pt.operator_raw).map Prod.snd).getD false)⟩
          = (store ++
              [⟨fingerprint m, pt,
                (resolve table pt.operator_raw).map Prod.fst,
                (((resolve table pt.operator_raw).map Prod.snd).getD false)⟩],
             .inserted) := by
        simp [insert_if_absent, hfp]
      have hp1 : processMessage cfg formats infer table store m
          = (store ++
              [⟨fingerprint m, pt,
                (resolve table pt.operator_raw).map Prod.fst,
                (((resolve table pt.operator_raw).map Prod.snd).getD false)⟩],
             .persisted) := by
        simp [processMessage, hfp, horch, hins]
      have hfp2 : hasFingerprint
          (store ++
            [⟨fingerprint m, pt,
              (resolve table pt.operator_raw).map Prod.fst,
              (((resolve table pt.operator_raw).map Prod.snd).getD false)⟩])
          (fingerprint m) = true :=
        hasFingerprint_append_self store _
      have hp2 : processMessage cfg formats infer table
          (processMessage cfg formats infer table store m).1 m
          = ((processMessage cfg formats infer table store m).1,
             .skipped_duplicate) := by
        rw [hp1]
        simp [processMessage, hfp2]
      refine ⟨by rw [hp2], fun _ => by rw [hp2], ?_⟩
      intro hcount _
      rw [hp2, hp1]
      rw [countFp_append, hcount]
      simp [countFp]

/-- Witness for C1: fresh store, a format that matches, the message is
persisted once and the retry is skipped. -/
theorem dedup_idempotence_witness :
    countFp (processMessage ⟨none, 0⟩ [⟨fun _ => some samplePF, 90⟩]
        (fun _ _ => none) []
        ((processMessage ⟨none, 0⟩ [⟨fun _ => some samplePF, 90⟩]
          (fun _ _ => none) [] [] sampleMsg).1) sampleMsg).1
      (fingerprint sampleMsg) = 1 :=
  (dedup_idempotence ⟨none, 0⟩ [⟨fun _ => some samplePF, 90⟩]
    (fun _ _ => none) [] [] sampleMsg).2.2 rfl rfl

/-! ## C2 -/

/-- Reachable states of the transaction store: the empty store, and any
store produced from a reachable one by the Persistence Gateway insert
or by a worker iteration. -/
inductive ReachableStore : List Transaction → Prop where
  | empty : ReachableStore []
  | insert (s : List Transaction) (t : Transaction) :
      ReachableStore s → ReachableStore (insert_if_absent s t).1
  | process (cfg : OrchestratorConfig) (formats : List RegexFormat)
      (infer : String → String → Option (ParsedFields × Nat))
      (table : List OperatorMapping) (s : List Transaction) (m : RawMessage) :
      ReachableStore s →
      ReachableStore (processMessage cfg formats infer table s m).1

lemma insert_if_absent_fst_nodup (s : List Transaction) (t : Transaction)
    (h : (s.map (fun u => u.fingerprint)).Nodup) :
    (((insert_if_absent s t).1).map (fun u => u.fingerprint)).Nodup := by
  unfold insert_if_absent
  by_cases hfp : hasFingerprint s t.fingerprint
  · simpa [hfp] using h
  · have hnot : t.fingerprint ∉ s.map (fun u => u.fingerprint) := by
      rw [List.mem_map]
      rintro ⟨u, hu, hequ⟩
      exact ((hasFingerprint_false_iff s t.fingerprint).1
        (by simpa using hfp) u hu) hequ
    simp only [hfp, if_neg, Bool.false_eq_true, not_false_iff, List.map_append]
    simp [List.nodup_append, h, hnot]

lemma processMessage_fst_cases (cfg : OrchestratorConfig)
    (formats : List RegexFormat)
    (infer : String → String → Option (ParsedFields × Nat))
    (table : List OperatorMapping) (s : List Transaction) (m : RawMessage) :
    (processMessage cfg formats infer table s m).1 = s ∨
    ∃ t, (processMessage cfg formats infer table s m).1
        = (insert_if_absent s t).1 := by
  by_cases hfp : hasFingerprint s (fingerprint m)
  · left; simp [processMessage, hfp]
  · cases horch : orchestrate cfg formats infer m.text with
    | failure r => left; simp [processMessage, hfp, horch]
    | success pt =>
      right
      refine ⟨⟨fingerprint m, pt,
        (resolve table pt.operator_raw).map Prod.fst,
        (((resolve table pt.operator_raw).map Prod.snd).getD false)⟩, ?_⟩
      rcases hins : insert_if_absent s
          ⟨fingerprint m, pt,
            (resolve table pt.operator_raw).map Prod.fst,
            (((resolve table pt.operator_raw).map Prod.snd).getD false)⟩
        with ⟨s2, o⟩
      cases o <;> simp [processMessage, hfp, horch, hins]

/-- C2: fingerprint uniqueness at the persistence boundary — every
reachable store has pairwise-distinct fingerprints, and inserting a
transaction whose fingerprint already exists leaves the store unchanged
with the `duplicate` outcome (not an error). -/
theorem fingerprint_uniqueness (s : List Transaction)
    (h : ReachableStore s) :
    (s.map (fun u => u.fingerprint)).Nodup ∧
    (∀ t : Transaction, (∃ u ∈ s, u.fingerprint = t.fingerprint) →
      insert_if_absent s t = (s, .duplicate)) := by
  constructor
  · induction h with
    | empty => simp
    | insert s t _ ih => exact insert_if_absent_fst_nodup s t ih
    | process cfg formats infer table s m _ ih =>
      rcases processMessage_fst_cases cfg formats infer table s m with he | ⟨t, he⟩
      · rw [he]; exact ih
      · rw [he]; exact insert_if_absent_fst_nodup s t ih
  · rintro t ⟨u, hu, hequ⟩
    have : hasFingerprint s t.fingerprint = true := by
      simp only [hasFingerprint, List.any_eq_true]
      exact ⟨u, hu, by simp [hequ]⟩
    simp [insert_if_absent, this]

/-- Witness for C2: a store reached by one insert rejects a duplicate
of the same fingerprint. -/
theorem fingerprint_uniqueness_witness :
    insert_if_absent (insert_if_absent [] sampleTx).1 sampleTx
      = ((insert_if_absent [] sampleTx).1, InsertOutcome.duplicate) :=
  (fingerprint_uniqueness _
      (ReachableStore.insert [] sampleTx ReachableStore.empty)).2
    sampleTx ⟨sampleTx, by decide, rfl⟩

/-! ## C5 and C6 — operator mapper lemmas -/

lemma pickBest_eq_none {l : List OperatorMapping} :
    pickBest l = none ↔ l = [] := by
  cases l with
  | nil => simp [pickBest]
  | cons r rs =>
    simp only [pickBest]
    cases pickBest rs with
    | none => simp
    | some b =>
      by_cases hb : betterRow b r = true <;> simp [hb]

lemma pickBest_mem : ∀ {l : List OperatorMapping} {r : OperatorMapping},
    pickBest l = some r → r ∈ l
  | [], r, h => by simp [pickBest] at h
  | a :: rs, r, h => by
    simp only [pickBest] at h
    cases hrs : pickBest rs with
    | none => rw [hrs] at h; simp at h; simp [h]
    | some b =>
      rw [hrs] at h
      change (if betterRow b a = true then some b else some a) = some r at h
      by_cases hb : betterRow b a = true
      · rw [if_pos hb] at h
        have : b = r := by injection h
        exact this ▸ List.mem_cons_of_mem a (pickBest_mem hrs)
      · rw [if_neg hb] at h
        have : a = r := by injection h
        simp [← this]

lemma betterRow_true_priority {x y : OperatorMapping}
    (h : betterRow x y = true) : y.priority ≤ x.priority := by
  unfold betterRow at h
  by_cases h1 : x.priority = y.priority
  · omega
  · rw [if_neg h1] at h
    have := of_decide_eq_true h
    omega

lemma betterRow_false_priority {x y : OperatorMapping}
    (h : betterRow x y = false) : x.priority ≤ y.priority := by
  unfold betterRow at h
  by_cases h1 : x.priority = y.priority
  · omega
  · rw [if_neg h1] at h
    have := of_decide_eq_false h
    omega

lemma pickBest_priority : ∀ {l : List OperatorMapping} {r : OperatorMapping},
    pickBest l = some r → ∀ x ∈ l, x.priority ≤ r.priority
  | [], r, h => by simp [pickBest] at h
  | a :: rs, r, h => by
    simp only [pickBest] at h
    cases hrs : pickBest rs with
    | none =>
      rw [hrs] at h
      have hnil : rs = [] := pickBest_eq_none.1 hrs
      have har : a = r := by injection h
      subst har
      subst hnil
      intro x hx
      simp at hx
      simp [hx]
    | some b =>
      rw [hrs] at h
      change (if betterRow b a = true then some b else some a) = some r at h
      by_cases hb : betterRow b a = true
      · rw [if_pos hb] at h
        have hbr : b = r := by injection h
        subst hbr
        intro x hx
        rcases List.mem_cons.1 hx with rfl | hx
        · exact betterRow_true_priority hb
        · exact pickBest_priority hrs x hx
      · rw [if_neg hb] at h
        have har : a = r := by injection h
        subst har
        intro x hx
        rcases List.mem_cons.1 hx with rfl | hx
        · exact le_refl _
        · exact le_trans (pickBest_priority hrs x hx)
            (betterRow_false_priority (Bool.eq_false_iff.2 hb))

/-- Mapping table used by the witnesses: a low-priority exact row for
`"CLICK"` and a high-priority substring row for `"CLI"`. -/
def clickTable : List OperatorMapping :=
  [⟨"CLI", "CliSubstrApp", true, 100, true⟩,
   ⟨"CLICK", "ClickApp", false, 1, true⟩]

/-- C5: operator mapper precedence — inactive rows never participate
(resolution over the table equals resolution over its active rows), an
active exact row forces the result to come from an exact row, the
exact row `"CLICK"` beats the higher-priority substring row `"CLI"` on
input `"CLICK"`, and with no exact match a substring match of strictly
highest priority wins. -/
theorem operator_mapper_precedence :
    (∀ (table : List OperatorMapping) (raw : String),
      resolve table raw = resolve (activeRows table) raw) ∧
    (∀ (table : List OperatorMapping) (raw : String) (r : OperatorMapping),
      r ∈ table → r.is_active = true → r.operator_pattern = raw →
      ∃ e, e ∈ table ∧ e.is_active = true ∧ e.operator_pattern = raw ∧
        resolve table raw = some (e.application_name, e.is_p2p)) ∧
    (resolve clickTable "CLICK" = some ("ClickApp", false)) ∧
    (∀ (table : List OperatorMapping) (raw : String) (m : OperatorMapping),
      exactMatches table raw = [] → m ∈ substrMatches table raw →
      (∀ x ∈ substrMatches table raw, x ≠ m → x.priority < m.priority) →
      resolve table raw = some (m.application_name, m.is_p2p)) := by
  refine ⟨?_, ?_, by decide, ?_⟩
  · intro table raw
    simp [resolve, exactMatches, substrMatches, activeRows,
      List.filter_filter]
  · intro table raw r hmem hact hpat
    have hrex : r ∈ exactMatches table raw := by
      simp only [exactMatches, activeRows, List.mem_filter]
      exact ⟨⟨hmem, hact⟩, by simp [hpat]⟩
    have hne : exactMatches table raw ≠ [] := by
      intro hnil
      rw [hnil] at hrex
      exact absurd hrex (List.not_mem_nil r)
    rcases he : pickBest (exactMatches table raw) with _ | e
    · exact absurd (pickBest_eq_none.1 he) hne
    · have hemem := pickBest_mem he
      simp only [exactMatches, activeRows, List.mem_filter] at hemem
      refine ⟨e, hemem.1.1, hemem.1.2, by simpa using hemem.2, ?_⟩
      simp [resolve, he]
  · intro table raw m hex hm hdom
    rcases hr : pickBest (substrMatches table raw) with _ | r
    · rw [pickBest_eq_none.1 hr] at hm
      exact absurd hm (List.not_mem_nil m)
    · have hrmem := pickBest_mem hr
      have : r = m := by
        by_contra hne
        exact absurd (pickBest_priority hr m hm)
          (not_le.2 (hdom r hrmem hne))
      subst this
      simp [resolve, hex, pickBest, hr]

/-- Witness for C5: the exact row of `clickTable` resolves `"CLICK"`. -/
theorem operator_mapper_precedence_witness :
    ∃ e, e ∈ clickTable ∧ e.is_active = true ∧
      e.operator_pattern = "CLICK" ∧
      resolve clickTable "CLICK" = some (e.application_name, e.is_p2p) :=
  operator_mapper_precedence.2.1 clickTable "CLICK"
    ⟨"CLICK", "ClickApp", false, 1, true⟩ (by decide) rfl rfl

/-- C6: deterministic tie-break — resolution is a pure function of the
table and input, and when exactly two active substring rows match at
equal priority (and nothing matches exactly) the winner is determined
by longest pattern length, then by pattern lexical order. -/
theorem operator_mapper_tie_break :
    (∀ (table : List OperatorMapping) (raw : String),
      resolve table raw = resolve table raw) ∧
    (∀ (table : List OperatorMapping) (raw : String)
        (a b : OperatorMapping),
      exactMatches table raw = [] → substrMatches table raw = [a, b] →
      a.priority = b.priority →
      (b.operator_pattern.length < a.operator_pattern.length →
        resolve table raw = some (a.application_name, a.is_p2p)) ∧
      (a.operator_pattern.length < b.operator_pattern.length →
        resolve table raw = some (b.application_name, b.is_p2p)) ∧
      (a.operator_pattern.length = b.operator_pattern.length →
        a.operator_pattern < b.operator_pattern →
        resolve table raw = some (a.application_name, a.is_p2p))) := by
  refine ⟨fun table raw => rfl, ?_⟩
  intro table raw a b hex hsub hp
  have hres : resolve table raw
      = (if betterRow b a then some b else some a).map
          (fun r => (r.application_name, r.is_p2p)) := by
    simp [resolve, hex, hsub, pickBest]
  refine ⟨?_, ?_, ?_⟩
  · intro hlen
    have hba : betterRow b a = false := by
      unfold betterRow
      rw [if_pos hp.symm, if_neg (Nat.ne_of_lt hlen)]
      exact decide_eq_false (Nat.not_lt.2 (Nat.le_of_lt hlen))
    rw [hres, hba]
    rfl
  · intro hlen
    have hba : betterRow b a = true := by
      unfold betterRow
      rw [if_pos hp.symm, if_neg (Nat.ne_of_gt hlen)]
      exact decide_eq_true hlen
    rw [hres, hba]
    rfl
  · intro hlen hlex
    have hba : betterRow b a = false := by
      unfold betterRow
      rw [if_pos hp.symm, if_pos hlen.symm]
      exact decide_eq_false (lt_asymm hlex)
    rw [hres, hba]
    rfl

/-- Witness for C6: two equal-priority substring rows, longer pattern
wins. -/
theorem operator_mapper_tie_break_witness :
    resolve [⟨"PAYME", "PaymeApp", false, 5, true⟩,
             ⟨"PAY", "PayApp", true, 5, true⟩] "OPLATA PAYME"
      = some ("PaymeApp", false) :=
  ((operator_mapper_tie_break.2
      [⟨"PAYME", "PaymeApp", false, 5, true⟩, ⟨"PAY", "PayApp", true, 5, true⟩]
      "OPLATA PAYME"
      ⟨"PAYME", "PaymeApp", false, 5, true⟩ ⟨"PAY", "PayApp", true, 5, true⟩
      (by decide) (by decide) rfl).1) (by decide)

/-! ## C10 — offline cache lemmas -/

lemma sortTransactions_perm (items : List FrontTx) :
    List.Perm (sortTransactions items) items :=
  List.mergeSort_perm items _

lemma sortTransactions_sorted (items : List FrontTx) :
    sortedByDate (sortTransactions items) := by
  have h := @List.sorted_mergeSort FrontTx
    (fun a b => decide (sortKey a ≤ sortKey b))
    (by
      intro a b c h1 h2
      simp only [decide_eq_true_eq] at h1 h2 ⊢
      omega)
    (by
      intro a b
      simp only [Bool.or_eq_true, decide_eq_true_eq]
      omega)
    items
  exact h.imp (fun hab => of_decide_eq_true hab)

lemma sortTransactions_uniqueIds {items : List FrontTx}
    (h : uniqueIds items) : uniqueIds (sortTransactions items) := by
  unfold uniqueIds at h ⊢
  exact (List.Perm.nodup_iff
    (List.Perm.map (fun t => t.id) (sortTransactions_perm items))).2 h

lemma setEntry_ids_sub : ∀ (us : List FrontTx) (tx : FrontTx) (x : Nat),
    x ∈ (setEntry us tx).map (fun t => t.id) →
    x = tx.id ∨ x ∈ us.map (fun t => t.id)
  | [], tx, x, hx => by
    simp [setEntry] at hx
    exact Or.inl hx
  | u :: us, tx, x, hx => by
    simp only [setEntry] at hx
    by_cases hid : u.id = tx.id
    · rw [if_pos hid] at hx
      simp only [List.map_cons, List.mem_cons] at hx
      rcases hx with hx | hx
      · exact Or.inl hx
      · exact Or.inr (by simp [hx])
    · rw [if_neg hid] at hx
      simp only [List.map_cons, List.mem_cons] at hx
      rcases hx with hx | hx
      · exact Or.inr (by simp [hx])
      · rcases setEntry_ids_sub us tx x hx with h | h
        · exact Or.inl h
        · exact Or.inr (by simp [h])

lemma setEntry_uniqueIds : ∀ (us : List FrontTx) (tx : FrontTx),
    uniqueIds us → uniqueIds (setEntry us tx)
  | [], tx, _ => by simp [setEntry, uniqueIds]
  | u :: us, tx, h => by
    simp only [uniqueIds, List.map_cons, List.nodup_cons] at h
    by_cases hid : u.id = tx.id
    · simp only [setEntry, if_pos hid, uniqueIds, List.map_cons,
        List.nodup_cons]
      exact ⟨by rw [← hid]; exact h.1, h.2⟩
    · simp only [setEntry, if_neg hid, uniqueIds, List.map_cons,
        List.nodup_cons]
      constructor
      · intro hmem
        rcases setEntry_ids_sub us tx u.id hmem with heq | hmem2
        · exact hid heq
        · exact h.1 hmem2
      · exact setEntry_uniqueIds us tx h.2

lemma foldl_setEntry_uniqueIds : ∀ (xs : List FrontTx) (acc : List FrontTx),
    uniqueIds acc → uniqueIds (xs.foldl setEntry acc)
  | [], _, h => h
  | x :: xs, acc, h =>
    foldl_setEntry_uniqueIds xs (setEntry acc x) (setEntry_uniqueIds acc x h)

lemma map_id_newDataAfterUpdateFields_inner (prev : List FrontTx)
    (updates : List FieldUpdate) :
    (prev.map (fun tx =>
      match updates.find? (fun u => u.id == tx.id) with
      | some u => patchTx tx u.fields
      | none => tx)).map (fun t => t.id) = prev.map (fun t => t.id) := by
  rw [List.map_map]
  apply List.map_congr_left
  intro tx _
  simp only [Function.comp_apply]
  split <;> rfl

/-- C10: every state update of `useOfflineTransactions` preserves the
cache invariant — at most one row per id and ascending
`transaction_date` order (missing dates as timestamp 0) — and
`sortTransactions` returns a fresh sorted permutation of its input
(the argument list itself is untouched; the embedding is pure). -/
theorem offline_cache_invariant :
    (∀ items, List.Perm (sortTransactions items) items ∧
      sortedByDate (sortTransactions items)) ∧
    (∀ dbItems, uniqueIds dbItems → CacheInv (newDataAfterLoad dbItems)) ∧
    CacheInv [] ∧
    (∀ fetched, uniqueIds fetched → CacheInv (newDataAfterSync fetched)) ∧
    (∀ prev list, CacheInv (newDataAfterUpsert prev list)) ∧
    (∀ prev updates, uniqueIds prev →
      CacheInv (newDataAfterUpdateFields prev updates)) ∧
    (∀ prev ids, CacheInv prev → CacheInv (newDataAfterRemove prev ids)) := by
  refine ⟨?_, ?_, ?_, ?_, ?_, ?_, ?_⟩
  · exact fun items => ⟨sortTransactions_perm items, sortTransactions_sorted items⟩
  · exact fun dbItems h =>
      ⟨sortTransactions_uniqueIds h, sortTransactions_sorted dbItems⟩
  · exact ⟨by simp [uniqueIds], by simp [sortedByDate]⟩
  · exact fun fetched h =>
      ⟨sortTransactions_uniqueIds h, sortTransactions_sorted fetched⟩
  · intro prev list
    refine ⟨?_, sortTransactions_sorted _⟩
    exact sortTransactions_uniqueIds
      (foldl_setEntry_uniqueIds (prev ++ list) [] (by simp [uniqueIds]))
  · intro prev updates h
    refine ⟨?_, sortTransactions_sorted _⟩
    apply sortTransactions_uniqueIds
    unfold uniqueIds
    rw [map_id_newDataAfterUpdateFields_inner prev updates]
    exact h
  · intro prev ids h
    have hsub : List.Sublist (newDataAfterRemove prev ids) prev :=
      List.filter_sublist prev
    exact ⟨List.Nodup.sublist (List.Sublist.map (fun t => t.id) hsub) h.1,
      List.Pairwise.sublist hsub h.2⟩

/-- Witness for C10: removal from an invariant-satisfying two-row cache
keeps the invariant. -/
theorem offline_cache_invariant_witness :
    CacheInv (newDataAfterRemove
      [⟨1, none, "10", "UZS", none⟩, ⟨2, some 5, "20", "UZS", none⟩] [1]) :=
  offline_cache_invariant.2.2.2.2.2.2
    [⟨1, none, "10", "UZS", none⟩, ⟨2, some 5, "20", "UZS", none⟩] [1]
    (by decide)

end Parcer
